import Mathlib

/-!
Verification of the text/intent parsing and derived-metrics engine of the
foodfather Telegram bot (src/bot.py), shallowly embedded in Lean 4.

Conventions of the embedding:
* Python `str` values are `String` / `List Char`; scanning regular
  expressions are embedded as character-list matchers that reproduce the
  exact backtracking behaviour of Python's `re` on the inputs the program
  feeds them (whitespace-stripped message text, LLM reply text).
* Python `float` arithmetic is modelled over `ℚ`; `round` is Python's
  round-half-to-even (`pyRound`).
* SQLite tables are modelled as lists of row structures; `INSERT ... ON
  CONFLICT DO UPDATE` becomes a replace-or-append operation on the list.
-/

/-- Case folding as performed by `re.IGNORECASE` on the characters used by the
bot's patterns: ASCII `A`-`Z` and Cyrillic `А`-`Я`, `Ё` fold to lowercase. -/
def caseFold (c : Char) : Char :=
  let n := c.toNat
  if 65 ≤ n ∧ n ≤ 90 then Char.ofNat (n + 32)
  else if 1040 ≤ n ∧ n ≤ 1071 then Char.ofNat (n + 32)
  else if n = 1025 then Char.ofNat 1105
  else c

/-- ASCII decimal digit, the class matched by `[0-9]` and `\d` on this input. -/
def isDigitCh (c : Char) : Bool := decide (48 ≤ c.toNat ∧ c.toNat ≤ 57)

/-- Numeric value of an ASCII digit character. -/
def digitVal (c : Char) : Nat := c.toNat - 48

/-- Whitespace as matched by Python's `\s` and stripped by `str.strip()`
(ASCII whitespace, file/group/record/unit separators, NEL, NBSP and the
Unicode space block). -/
def pyIsSpace (c : Char) : Bool :=
  let n := c.toNat
  decide ((9 ≤ n ∧ n ≤ 13) ∨ (28 ≤ n ∧ n ≤ 32) ∨ n = 133 ∨ n = 160 ∨
    n = 5760 ∨ (8192 ≤ n ∧ n ≤ 8202) ∨ n = 8232 ∨ n = 8233 ∨ n = 8239 ∨
    n = 8287 ∨ n = 12288)

/-- Word characters for `\b`/`\w` on the program's texts: ASCII alphanumerics,
underscore and the Cyrillic letters. -/
def isWordCh (c : Char) : Bool :=
  let n := c.toNat
  decide ((48 ≤ n ∧ n ≤ 57) ∨ (65 ≤ n ∧ n ≤ 90) ∨ (97 ≤ n ∧ n ≤ 122) ∨
    n = 95 ∨ (1040 ≤ n ∧ n ≤ 1103) ∨ n = 1025 ∨ n = 1105)

/-- Python `str.strip()`: drop whitespace from both ends. -/
def pyStrip (cs : List Char) : List Char :=
  ((cs.dropWhile pyIsSpace).reverse.dropWhile pyIsSpace).reverse

/-- Value of a string of decimal digits, as `int()` parses it. -/
def natOfDigits (ds : List Char) : Nat :=
  ds.foldl (fun a c => 10 * a + digitVal c) 0

/-- Case-insensitive literal matcher: `lit` is given folded (lowercase);
consumes it from the front of the input and returns the rest. -/
def matchCaseLit : List Char → List Char → Option (List Char)
  | [], cs => some cs
  | _ :: _, [] => none
  | l :: ls, c :: cs => if caseFold c = l then matchCaseLit ls cs else none

/-- Python round-half-to-even (`round`), over `ℚ`: the floor (num/den is
floor division since the denominator is positive), the fractional part, and
the half-to-even tie break. -/
def pyRound (q : ℚ) : ℤ :=
  let f : ℤ := q.num / (q.den : ℤ)
  let r : ℚ := q - (f : ℚ)
  if r < 1/2 then f
  else if (1 : ℚ)/2 < r then f + 1
  else if f % 2 = 0 then f else f + 1

/-! ## CAL_RANGE_RE and parse_kcal_range (src/bot.py:73, 114-121)

`CAL_RANGE_RE = re.compile(r"Калор(ии|ий|ии):\s*([0-9]{2,4})\s*[-–]\s*([0-9]{2,4})", re.IGNORECASE)`

At a given start position the pattern is deterministic up to two points the
matcher reproduces: the first digit group `[0-9]{2,4}` must consume its whole
maximal digit run (a shorter greedy take leaves a digit where `\s*[-–]` must
match, which fails), so it succeeds exactly when that run has length 2..4;
the second digit group takes the first `min 4` digits of its run and needs at
least 2. -/

/-- The suffix alternation `(ии|ий|ии)` after the literal `Калор`. -/
def calAltSuffix (cs : List Char) : Option (List Char) :=
  (matchCaseLit ['и', 'и'] cs) <|> (matchCaseLit ['и', 'й'] cs)

/-- First calorie group `([0-9]{2,4})` followed by `\s*[-–]` context: consumes
the maximal digit run, which must have length 2..4. -/
def calDigits1 (cs : List Char) : Option (Nat × List Char) :=
  let run := cs.takeWhile isDigitCh
  if 2 ≤ run.length ∧ run.length ≤ 4 then
    some (natOfDigits run, cs.dropWhile isDigitCh)
  else none

/-- Second calorie group `([0-9]{2,4})` at the end of the pattern: greedily
takes up to 4 digits, needs at least 2. -/
def calDigits2 (cs : List Char) : Option Nat :=
  let run := cs.takeWhile isDigitCh
  if 2 ≤ run.length then some (natOfDigits (run.take 4)) else none

/-- Try to match `CAL_RANGE_RE` at the current position. -/
def calMatchHere (cs : List Char) : Option (Nat × Nat) := do
  let r1 ← matchCaseLit ['к', 'а', 'л', 'о', 'р'] cs
  let r2 ← calAltSuffix r1
  let r3 ← match r2 with
    | ':' :: t => some t
    | _ => none
  let (n1, r4) ← calDigits1 (r3.dropWhile pyIsSpace)
  let r5 := r4.dropWhile pyIsSpace
  let r6 ← match r5 with
    | c :: t => if c.toNat = 45 ∨ c.toNat = 8211 then some t else none
    | [] => none
  let n2 ← calDigits2 (r6.dropWhile pyIsSpace)
  return (n1, n2)

/-- `re.search` for `CAL_RANGE_RE`: leftmost matching position wins. -/
def calSearch : List Char → Option (Nat × Nat)
  | [] => none
  | c :: rest =>
    match calMatchHere (c :: rest) with
    | some p => some p
    | none => calSearch rest

/-- `parse_kcal_range` (src/bot.py:114-121): search for the calorie line,
absent line gives `(None, None)`, and an inverted range is swapped. -/
def parse_kcal_range (text : String) : Option Nat × Option Nat :=
  match calSearch text.data with
  | none => (none, none)
  | some (low, high) =>
    if high < low then (some high, some low) else (some low, some high)

/-! ## kcal_mid and estimate_burned_kcal_from_steps (src/bot.py:123-132) -/

/-- `kcal_mid` (src/bot.py:123-126): `int(round((low + high) / 2))` when both
bounds are present, `None` otherwise. -/
def kcal_mid : Option ℤ → Option ℤ → Option ℤ
  | some low, some high => some (pyRound (((low : ℚ) + (high : ℚ)) / 2))
  | _, _ => none

/-- `estimate_burned_kcal_from_steps` (src/bot.py:128-132):
`factor = (weight_kg / 70.0) if weight_kg else 1.0` — note Python truthiness:
a weight of `0.0` takes the default factor `1.0` exactly like `None`. -/
def estimate_burned_kcal_from_steps (steps : ℤ) (weight_kg : Option ℚ) : ℤ :=
  let base_per_step : ℚ := 0.04
  let factor : ℚ :=
    match weight_kg with
    | some w => if w = 0 then 1.0 else w / 70.0
    | none => 1.0
  pyRound ((steps : ℚ) * base_per_step * factor)

/-- The spec's stated formula for `estimateBurnedKcal`, for comparison with
the source: `round(steps * 0.04 * (weightKg/70 if weightKg present else 1))`,
where presence is `is not None`. -/
def estimateBurnedKcalSpec (steps : ℤ) (weight_kg : Option ℚ) : ℤ :=
  pyRound ((steps : ℚ) * 0.04 *
    (match weight_kg with
     | some w => w / 70
     | none => 1))

/-! ## WEIGHT_RE and the weight branch of on_text (src/bot.py:61, 796-805)

`WEIGHT_RE = re.compile(r"(?:^|\b)(?:вес\s*)?(\d{2,3}(?:[.,]\d)?)\b", re.IGNORECASE)`

The handler strips the message, searches, replaces `,` with `.`, parses a
float and records it only when `30.0 <= w <= 300.0`. -/

/-- `\b` immediately after a digit: holds at end of input or before a
non-word character. -/
def boundaryAfterDigit : List Char → Bool
  | [] => true
  | c :: _ => !(isWordCh c)

/-- One greedy alternative of the group `(\d{2,3}(?:[.,]\d)?)\b` taking
exactly `k` digits from the maximal run `run`: the optional fraction is
tried first, then the bare digits, each followed by the `\b` check. -/
def weightGroupTry (k : Nat) (run rest : List Char) : Option (List Char × Option Char) :=
  if k ≤ run.length then
    let ds := run.take k
    match run.drop k ++ rest with
    | s :: d :: r =>
      if (s = '.' ∨ s = ',') ∧ isDigitCh d ∧ boundaryAfterDigit r then some (ds, some d)
      else if !(isWordCh s) then some (ds, none) else none
    | [s] => if !(isWordCh s) then some (ds, none) else none
    | [] => some (ds, none)
  else none

/-- The group `(\d{2,3}(?:[.,]\d)?)\b`: greedy, so three digits are tried
before two. -/
def weightGroupMatch (cs : List Char) : Option (List Char × Option Char) :=
  let run := cs.takeWhile isDigitCh
  let rest := cs.dropWhile isDigitCh
  (weightGroupTry 3 run rest) <|> (weightGroupTry 2 run rest)

/-- The optional prefix `(?:вес\s*)?`: literal `вес` (case-insensitive) then
greedy whitespace. -/
def vesWs (cs : List Char) : Option (List Char) :=
  (matchCaseLit ['в', 'е', 'с'] cs).map (List.dropWhile pyIsSpace)

/-- `(?:^|\b)` at the current position: `^` matches at position 0
(`prev = none`); elsewhere a word boundary is required. -/
def weightBoundary (prev : Option Char) (cs : List Char) : Bool :=
  match prev with
  | none => true
  | some a =>
    match cs with
    | [] => isWordCh a
    | c :: _ => isWordCh a != isWordCh c

/-- Try `WEIGHT_RE` at the current position: anchor, then the optional `вес`
prefix (greedy, so tried first), then the capture group. -/
def weightMatchHere (prev : Option Char) (cs : List Char) : Option (List Char × Option Char) :=
  if weightBoundary prev cs then
    (match vesWs cs with
     | some cs1 => weightGroupMatch cs1
     | none => none) <|> weightGroupMatch cs
  else none

/-- `re.search` for `WEIGHT_RE`: positions scanned left to right, tracking
the previous character for the boundary tests. -/
def weightSearch (prev : Option Char) : List Char → Option (List Char × Option Char)
  | [] => weightMatchHere prev []
  | c :: rest =>
    match weightMatchHere prev (c :: rest) with
    | some g => some g
    | none => weightSearch (some c) rest

/-- Numeric value of the captured group after `raw.replace(",", ".")` and
`float(raw)`: integer digits plus an optional single decimal. -/
def weightValue (g : List Char × Option Char) : ℚ :=
  (natOfDigits g.1 : ℚ) +
    (match g.2 with
     | some d => (digitVal d : ℚ) / 10
     | none => 0)

/-- The weight branch of `on_text` (src/bot.py:796-805): strip, search
`WEIGHT_RE`, parse, and keep the value only inside `[30, 300]`; anything
else behaves as "no match" and falls through. -/
def matchWeightFull (text : String) : Option ℚ :=
  match weightSearch none (pyStrip text.data) with
  | none => none
  | some g =>
    let w := weightValue g
    if 30 ≤ w ∧ w ≤ 300 then some w else none

/-- Decimal rendering of a weight `n + d/10` with 2-3 integer digits, as it
appears in a message such as "79.4" or "79,4". -/
def renderWeight (n d : Nat) (sep : Char) : String :=
  String.mk
    ((if n < 100 then [Char.ofNat (48 + n / 10), Char.ofNat (48 + n % 10)]
      else [Char.ofNat (48 + n / 100), Char.ofNat (48 + n / 10 % 10), Char.ofNat (48 + n % 10)]) ++
      [sep, Char.ofNat (48 + d)])

/-! ## CORRECT_PREFIX_RE and extract_correction_text (src/bot.py:74, 134-150)

`CORRECT_PREFIX_RE = re.compile(r"^(исправь|это|на\s*фото)\s*:?\s*(.+)$", re.IGNORECASE)`

`extract_correction_text` strips its input first, so every suffix handed to
the sub-matchers below ends in a non-whitespace character and `$` can only
match at the end of the input.  The backtracking of `\s*:?\s*(.+)$` then
collapses to: consume maximal whitespace, an optional colon, maximal
whitespace again; the leftover must be non-empty and newline-free (a shorter
whitespace take only prepends characters to a leftover that keeps the same
newline), with the single exception that a leftover emptied by consuming a
final colon backs off to the colon itself. -/

/-- The alternation `(исправь|это|на\s*фото)` at the start of the (stripped)
text; alternatives begin with distinct letters, so at most one applies. -/
def correctAltRest (cs : List Char) : Option (List Char) :=
  (matchCaseLit ['и', 'с', 'п', 'р', 'а', 'в', 'ь'] cs) <|>
  (matchCaseLit ['э', 'т', 'о'] cs) <|>
  ((matchCaseLit ['н', 'а'] cs).bind fun r =>
    matchCaseLit ['ф', 'о', 'т', 'о'] (r.dropWhile pyIsSpace))

/-- The tail `\s*:?\s*(.+)$` on a whitespace-stripped suffix, returning
group 2. -/
def correctTailGroup (r : List Char) : Option (List Char) :=
  let a := r.dropWhile pyIsSpace
  let cand :=
    match a with
    | ':' :: rest =>
      let b := rest.dropWhile pyIsSpace
      if b.isEmpty then a else b
    | _ => a
  if cand.isEmpty || cand.contains '\n' then none else some cand

/-- `\s+`: at least one whitespace character, then greedily all of them. -/
def wsPlus (cs : List Char) : Option (List Char) :=
  match cs with
  | c :: rest => if pyIsSpace c then some (rest.dropWhile pyIsSpace) else none
  | [] => none

/-- `re.match(r"^это\s+не\s+", t, re.IGNORECASE)` as a test. -/
def etoNeTest (cs : List Char) : Bool :=
  ((((matchCaseLit ['э', 'т', 'о'] cs).bind wsPlus).bind
    (matchCaseLit ['н', 'е'])).bind wsPlus).isSome

/-- `re.search(r"\bа\s+(.+)$", t, re.IGNORECASE)` on a whitespace-stripped
text: scan left to right for a Cyrillic `а` (code 1072 after folding) at a
word boundary followed by whitespace and a newline-free non-empty tail
reaching the end, returning group 1. -/
def aSearch (prev : Option Char) (cs : List Char) : Option (List Char) :=
  match cs with
  | [] => none
  | c :: rest =>
    if ((caseFold c).toNat == 1072 &&
        (match prev with
         | none => true
         | some p => !(isWordCh p))) then
      match wsPlus rest with
      | some rem =>
        if rem.isEmpty || rem.contains '\n' then aSearch (some c) rest else some rem
      | none => aSearch (some c) rest
    else aSearch (some c) rest

/-- `extract_correction_text` (src/bot.py:134-150): explicit prefix rule
(colon optional!), then the `это не X, а Y` rule, then the whole short
message, else nothing. -/
def extract_correction_text (text : String) : Option String :=
  let t := pyStrip text.data
  if t.isEmpty then none
  else
    match (correctAltRest t).bind correctTailGroup with
    | some g2 => some (String.mk (pyStrip g2))
    | none =>
      if etoNeTest t then
        match aSearch none t with
        | some g1 => some (String.mk (pyStrip g1))
        | none => if t.length ≤ 80 then some (String.mk t) else none
      else if t.length ≤ 80 then some (String.mk t) else none

/-! ## Meals and total_intake_today (src/bot.py:314-344) -/

/-- One row of the `meals` table as returned by `meals_today`
(src/bot.py:323-332): `dt, title, kcal_low, kcal_high, bot_message_id`. -/
structure MealRow where
  dt : String
  title : String
  kcal_low : Option ℤ
  kcal_high : Option ℤ
  bot_message_id : ℤ
deriving DecidableEq

/-- `total_intake_today` (src/bot.py:334-344) over the day's rows: sum the
known midpoints, count all rows, count the known ones. -/
def total_intake_today (rows : List MealRow) : ℤ × ℕ × ℕ :=
  let acc := rows.foldl
    (fun (a : ℤ × ℕ) r =>
      match kcal_mid r.kcal_low r.kcal_high with
      | some mid => (a.1 + mid, a.2 + 1)
      | none => a)
    (0, 0)
  (acc.1, rows.length, acc.2)

/-- The known midpoints of a list of meal rows, in order. -/
def midsOf (rows : List MealRow) : List ℤ :=
  rows.filterMap fun r => kcal_mid r.kcal_low r.kcal_high

/-! ## profiles table and upsert_profile (src/bot.py:174-183, 259-271) -/

/-- One row of the `profiles` table: primary key `(chat_id, user_id)`. -/
structure ProfileRow where
  chat_id : ℤ
  user_id : ℤ
  name : String
  height_cm : ℤ
  weight_kg : ℚ
  updated_at : String
deriving DecidableEq

/-- The primary-key test of `profiles`. -/
def profKey (chat_id user_id : ℤ) (r : ProfileRow) : Bool :=
  decide (r.chat_id = chat_id) && decide (r.user_id = user_id)

/-- `upsert_profile` (src/bot.py:259-271): `INSERT ... ON CONFLICT(chat_id,
user_id) DO UPDATE SET` every non-key field — replace the conflicting row(s)
in place, otherwise append a new row. -/
def upsert_profile (db : List ProfileRow) (chat_id user_id : ℤ) (name : String)
    (height_cm : ℤ) (weight_kg : ℚ) (ts : String) : List ProfileRow :=
  let new : ProfileRow := ⟨chat_id, user_id, name, height_cm, weight_kg, ts⟩
  if db.any (profKey chat_id user_id) then
    db.map fun r => if profKey chat_id user_id r then new else r
  else db ++ [new]

/-! ## pending_fixes table (src/bot.py:221-228, 374-397) -/

/-- One row of the `pending_fixes` table: primary key `(chat_id, user_id)`. -/
structure PendingRow where
  chat_id : ℤ
  user_id : ℤ
  bot_message_id : ℤ
  created_at : String
deriving DecidableEq

/-- The primary-key test of `pending_fixes`. -/
def pendKey (chat_id user_id : ℤ) (r : PendingRow) : Bool :=
  decide (r.chat_id = chat_id) && decide (r.user_id = user_id)

/-- `set_pending_fix` (src/bot.py:374-384): `INSERT ... ON CONFLICT(chat_id,
user_id) DO UPDATE SET bot_message_id, created_at`. -/
def set_pending_fix (db : List PendingRow) (chat_id user_id bot_message_id : ℤ)
    (ts : String) : List PendingRow :=
  let new : PendingRow := ⟨chat_id, user_id, bot_message_id, ts⟩
  if db.any (pendKey chat_id user_id) then
    db.map fun r => if pendKey chat_id user_id r then new else r
  else db ++ [new]

/-- `clear_pending_fix` (src/bot.py:394-397): `DELETE FROM pending_fixes
WHERE chat_id=? AND user_id=?`. -/
def clear_pending_fix (db : List PendingRow) (chat_id user_id : ℤ) : List PendingRow :=
  db.filter fun r => !(pendKey chat_id user_id r)

/-! ## The pending-fix block of on_text (src/bot.py:738-769) -/

/-- The pending-fix record as read back by `get_pending_fix`, with
`created_at` already parsed to a timestamp in seconds. -/
structure PendingFixInfo where
  bot_message_id : ℤ
  created_at : ℤ
deriving DecidableEq

/-- Outcome of the pending-fix block: a correction was applied, the "record
not found" reply was sent, or control falls through to the normal
classification chain (reply-correction, questions, weight, steps). -/
inductive PendingOutcome
  | applied (corr : String)
  | notFoundReply
  | fallthrough
deriving DecidableEq

/-- The pending-fix block of `on_text` (src/bot.py:738-769), with times in
seconds: when a pending fix exists, it is acted on only if it is at most 10
minutes (600 s) old and the message yields a non-empty correction text and
the referenced meal exists; in every case the pending record is cleared. -/
def handle_pending_fix (now : ℤ) (pending : Option PendingFixInfo) (t : String)
    (mealFound : Bool) : PendingOutcome × Option PendingFixInfo :=
  match pending with
  | none => (.fallthrough, none)
  | some p =>
    if now - p.created_at ≤ 600 then
      match extract_correction_text t with
      | some corr =>
        if corr = "" then (.fallthrough, none)
        else if mealFound then (.applied corr, none)
        else (.notFoundReply, none)
      | none => (.fallthrough, none)
    else (.fallthrough, none)

/-! ## Weight-trend comment -/

/-- Sign-explicit one-decimal rendering of a delta, as `f"{d:+.1f}"`. -/
def fmtSigned1 (d : ℚ) : String :=
  let t : ℤ := pyRound (10 * d)
  (if t < 0 then "-" else "+") ++ toString (t.natAbs / 10) ++ "." ++ toString (t.natAbs % 10)

/-- First-entry encouragement of the trend comment. -/
def trendFirstMsg : String := "Первый замер — записывай вес регулярно!"

/-- Stable-weight comment (|delta| < 0.2). -/
def trendStableMsg : String := "Вес стабилен"

/-- Downward-trend encouragement carrying the signed delta. -/
def trendDownMsg (delta : String) : String :=
  "Тренд вниз (" ++ delta ++ " кг) — так держать!"

/-- Upward-trend caveat carrying the signed delta. -/
def trendUpMsg (delta : String) : String :=
  "Тренд вверх (" ++ delta ++ " кг) — часто это вода/соль/сон."

/-- Modelled from the spec: `weightTrendComment(current, previous?)`.  The
variant of the repository that produces the trend comment is not under
`src/` (the `src/bot.py` variant's weight branch replies without a trend
comment), so the branch structure follows the spec: no previous value gives
the first-entry encouragement; `|current - previous| < 0.2` the stable
comment; a negative delta the downward-trend comment; a positive delta the
upward-trend caveat; the delta is reported to one decimal place with an
explicit sign. -/
def weightTrendComment (current : ℚ) (previous : Option ℚ) : String :=
  match previous with
  | none => trendFirstMsg
  | some prev =>
    let d := current - prev
    if |d| < 0.2 then trendStableMsg
    else if d < 0 then trendDownMsg (fmtSigned1 d)
    else trendUpMsg (fmtSigned1 d)

/-! ## Theorems -/

/-- Claim C1: `parse_kcal_range` returns the integer pair parsed from a
`Калории: <low>-<high>` line, normalized so that low ≤ high (swapped when
inverted), and `(none, none)` when no such line is present — absence is not
an error; in particular the three spec examples hold. -/
theorem claim1_parse_kcal_range :
    (∀ text low high, parse_kcal_range text = (some low, some high) → low ≤ high) ∧
    (∀ text, parse_kcal_range text = (none, none) ∨
      ∃ low high, parse_kcal_range text = (some low, some high)) ∧
    parse_kcal_range "...Калории: 650-850 ккал..." = (some 650, some 850) ∧
    parse_kcal_range "...Калории: 850-650..." = (some 650, some 850) ∧
    parse_kcal_range "no calorie line" = (none, none) := by
  refine ⟨?_, ?_, by decide, by decide, by decide⟩
  · intro text low high h
    unfold parse_kcal_range at h
    rcases hs : calSearch text.data with _ | ⟨a, b⟩ <;> rw [hs] at h
    · simp at h
    · dsimp only at h
      by_cases hab : b < a
      · rw [if_pos hab] at h
        rw [Prod.mk.injEq] at h
        obtain ⟨h1, h2⟩ := h
        rw [Option.some.injEq] at h1 h2
        omega
      · rw [if_neg hab] at h
        rw [Prod.mk.injEq] at h
        obtain ⟨h1, h2⟩ := h
        rw [Option.some.injEq] at h1 h2
        omega
  · intro text
    unfold parse_kcal_range
    rcases calSearch text.data with _ | ⟨a, b⟩
    · exact Or.inl rfl
    · refine Or.inr ?_
      dsimp only
      by_cases hab : b < a
      · exact ⟨b, a, by rw [if_pos hab]⟩
      · exact ⟨a, b, by rw [if_neg hab]⟩

/-- Witness for C1: the normalization conjunct applied at the spec's first
example. -/
theorem claim1_witness : (650 : Nat) ≤ 850 :=
  claim1_parse_kcal_range.1 "...Калории: 650-850 ккал..." 650 850 (by decide)

/-- `round` of an integer value is that integer. -/
theorem pyRound_intCast (m : ℤ) : pyRound ((m : ℚ)) = m := by
  unfold pyRound
  rw [Rat.num_intCast, Rat.den_intCast]
  norm_num

/-- Counterexample to claim C2 as stated: for the present weight `0.0` the
code's Python-truthiness test `if weight_kg` takes the default factor `1.0`,
while the claim's formula `weightKg/70 if weightKg is present else 1` gives
factor `0`; at 10000 steps the code answers 400, the formula 0. -/
theorem claim2_counterexample :
    estimate_burned_kcal_from_steps 10000 (some 0) = 400 ∧
    estimateBurnedKcalSpec 10000 (some 0) = 0 ∧
    estimate_burned_kcal_from_steps 10000 (some 0) ≠ estimateBurnedKcalSpec 10000 (some 0) := by
  have h1 : estimate_burned_kcal_from_steps 10000 (some 0) = 400 := by
    unfold estimate_burned_kcal_from_steps
    dsimp only
    rw [if_pos rfl]
    rw [show ((10000 : ℤ) : ℚ) * 0.04 * 1.0 = ((400 : ℤ) : ℚ) by norm_num]
    exact pyRound_intCast 400
  have h2 : estimateBurnedKcalSpec 10000 (some 0) = 0 := by
    unfold estimateBurnedKcalSpec
    dsimp only
    rw [show ((10000 : ℤ) : ℚ) * 0.04 * ((0 : ℚ) / 70) = ((0 : ℤ) : ℚ) by norm_num]
    exact pyRound_intCast 0
  refine ⟨h1, h2, ?_⟩
  rw [h1, h2]
  decide

/-- Claim C2 (amended): `estimate_burned_kcal_from_steps` equals
`round(steps * 0.04 * (weightKg/70 if weightKg is present and nonzero
else 1))`; a present weight of `0.0` behaves like an absent one; and the
three numeric-compatibility examples hold. -/
theorem claim2_estimate_burned_amended :
    (∀ (steps : ℤ) (w : ℚ), w ≠ 0 →
      estimate_burned_kcal_from_steps steps (some w) =
        pyRound ((steps : ℚ) * 0.04 * (w / 70))) ∧
    (∀ steps : ℤ,
      estimate_burned_kcal_from_steps steps none = pyRound ((steps : ℚ) * 0.04 * 1)) ∧
    (∀ steps : ℤ,
      estimate_burned_kcal_from_steps steps (some 0) =
        estimate_burned_kcal_from_steps steps none) ∧
    estimate_burned_kcal_from_steps 10000 (some 70) = 400 ∧
    estimate_burned_kcal_from_steps 10000 none = 400 ∧
    estimate_burned_kcal_from_steps 5000 (some 140) = 400 := by
  refine ⟨?_, ?_, ?_, ?_, ?_, ?_⟩
  · intro steps w hw
    unfold estimate_burned_kcal_from_steps
    dsimp only
    rw [if_neg hw]
    norm_num
  · intro steps
    unfold estimate_burned_kcal_from_steps
    norm_num
  · intro steps
    unfold estimate_burned_kcal_from_steps
    norm_num
  · unfold estimate_burned_kcal_from_steps
    dsimp only
    rw [if_neg (by norm_num)]
    rw [show ((10000 : ℤ) : ℚ) * 0.04 * ((70 : ℚ) / 70.0) = ((400 : ℤ) : ℚ) by norm_num]
    exact pyRound_intCast 400
  · unfold estimate_burned_kcal_from_steps
    dsimp only
    rw [show ((10000 : ℤ) : ℚ) * 0.04 * 1.0 = ((400 : ℤ) : ℚ) by norm_num]
    exact pyRound_intCast 400
  · unfold estimate_burned_kcal_from_steps
    dsimp only
    rw [if_neg (by norm_num)]
    rw [show ((5000 : ℤ) : ℚ) * 0.04 * ((140 : ℚ) / 70.0) = ((400 : ℤ) : ℚ) by norm_num]
    exact pyRound_intCast 400

/-- Witness for C2 (amended): the general formula applied at 10000 steps and
weight 70. -/
theorem claim2_witness :
    estimate_burned_kcal_from_steps 10000 (some 70) =
      pyRound ((10000 : ℚ) * 0.04 * (70 / 70)) :=
  claim2_estimate_burned_amended.1 10000 70 (by norm_num)

/-- Accumulator lemma for `total_intake_today`: the fold adds the sum of the
known midpoints to the first component and their count to the second. -/
theorem intake_foldl_eq (rows : List MealRow) : ∀ (t : ℤ) (k : ℕ),
    rows.foldl
      (fun (a : ℤ × ℕ) r =>
        match kcal_mid r.kcal_low r.kcal_high with
        | some mid => (a.1 + mid, a.2 + 1)
        | none => a)
      (t, k) =
    (t + (midsOf rows).sum, k + (midsOf rows).length) := by
  induction rows with
  | nil => intro t k; simp [midsOf]
  | cons r rs ih =>
    intro t k
    rw [List.foldl_cons]
    cases hm : kcal_mid r.kcal_low r.kcal_high with
    | none =>
      rw [ih t k]
      simp [midsOf, List.filterMap_cons, hm]
    | some mid =>
      rw [ih (t + mid) (k + 1)]
      simp only [midsOf, List.filterMap_cons, hm, List.sum_cons, List.length_cons]
      rw [Prod.mk.injEq]
      exact ⟨by omega, by omega⟩

/-- Claim C5: `total_intake_today` returns the sum of the known midpoints,
the total number of meals, and the number of meals with a known midpoint;
`kcal_mid` is `round((low+high)/2)` exactly when both bounds are present; a
meal with a null midpoint contributes zero to the total while still raising
the meal count. -/
theorem claim5_daily_intake :
    (∀ rows : List MealRow,
      total_intake_today rows = ((midsOf rows).sum, rows.length, (midsOf rows).length)) ∧
    (∀ (rows : List MealRow) (r : MealRow), kcal_mid r.kcal_low r.kcal_high = none →
      total_intake_today (rows ++ [r]) =
        ((total_intake_today rows).1, (total_intake_today rows).2.1 + 1,
          (total_intake_today rows).2.2)) ∧
    (∀ low high : ℤ,
      kcal_mid (some low) (some high) = some (pyRound (((low : ℚ) + (high : ℚ)) / 2))) ∧
    (∀ high, kcal_mid none high = none) ∧
    (∀ low, kcal_mid low none = none) := by
  have hmain : ∀ rows : List MealRow,
      total_intake_today rows = ((midsOf rows).sum, rows.length, (midsOf rows).length) := by
    intro rows
    unfold total_intake_today
    rw [intake_foldl_eq rows 0 0]
    simp
  refine ⟨hmain, ?_, fun low high => rfl, fun high => rfl, fun low => ?_⟩
  · intro rows r hm
    rw [hmain (rows ++ [r]), hmain rows]
    simp [midsOf, List.filterMap_append, hm]
  · cases low <;> rfl

/-- Witness for C5: a meal with no calorie range raises only the meal count. -/
theorem claim5_witness :
    total_intake_today ([] ++ [⟨"2024-01-01T12:00:00", "Еда", none, none, 1⟩]) =
      ((total_intake_today []).1, (total_intake_today []).2.1 + 1,
        (total_intake_today []).2.2) :=
  claim5_daily_intake.2.1 [] ⟨"2024-01-01T12:00:00", "Еда", none, none, 1⟩ rfl

/-- Claim C8: a pending fix created more than 10 minutes (600 s) before the
current message is never acted upon — the handler clears it and falls through
to the normal classification chain; expiry depends only on the comparison of
the current time with the stored creation time. -/
theorem claim8_pending_ttl :
    ∀ (now : ℤ) (p : PendingFixInfo) (t : String) (mealFound : Bool),
      600 < now - p.created_at →
      handle_pending_fix now (some p) t mealFound = (.fallthrough, none) := by
  intro now p t mealFound h
  unfold handle_pending_fix
  dsimp only
  rw [if_neg (by omega)]

/-- Witness for C8: an 11-minute-old pending fix with a perfectly good
correction message and an existing meal is still dropped. -/
theorem claim8_witness :
    handle_pending_fix 660 (some ⟨7, 0⟩) "исправь: сырники 3 шт" true =
      (.fallthrough, none) :=
  claim8_pending_ttl 660 ⟨7, 0⟩ "исправь: сырники 3 шт" true (by decide)

/-- Replacing every key-matching row by a key-matching `new` row turns the
key-filtered view into `countP` copies of `new`. -/
theorem replace_filter_eq {α : Type} (p : α → Bool) (new : α) (hnew : p new = true)
    (db : List α) :
    (db.map fun r => if p r then new else r).filter p =
      List.replicate (db.countP p) new := by
  induction db with
  | nil => simp
  | cons a l ih =>
    by_cases h : p a
    · simp [h, hnew, ih, List.countP_cons, List.replicate_succ]
    · simp [h, ih, List.countP_cons]

/-- The `INSERT ... ON CONFLICT DO UPDATE` shape: when the table holds at
most one row for the key, the key-filtered view afterwards is exactly the
new row. -/
theorem upsert_core_filter {α : Type} (p : α → Bool) (new : α) (hnew : p new = true)
    (db : List α) (hcount : db.countP p ≤ 1) :
    (if db.any p then db.map fun r => if p r then new else r else db ++ [new]).filter p =
      [new] := by
  by_cases hany : db.any p
  · rw [if_pos hany, replace_filter_eq p new hnew]
    have h1 : 0 < db.countP p := by
      rcases List.any_eq_true.mp hany with ⟨x, hx, hpx⟩
      exact List.countP_pos_iff.mpr ⟨x, hx, hpx⟩
    have h2 : db.countP p = 1 := le_antisymm hcount h1
    rw [h2, List.replicate_succ, List.replicate_zero]
  · rw [if_neg hany, List.filter_append]
    have h0 : db.filter p = [] := by
      rw [List.filter_eq_nil_iff]
      intro a ha hpa
      exact hany (List.any_eq_true.mpr ⟨a, ha, hpa⟩)
    simp [h0, hnew]

/-- Replacing key-matching rows by `new` preserves every count that cannot
tell the replaced rows from `new`. -/
theorem replace_countP {α : Type} (p q : α → Bool) (new : α)
    (hq : ∀ r, p r = true → q r = q new) (db : List α) :
    (db.map fun r => if p r then new else r).countP q = db.countP q := by
  induction db with
  | nil => rfl
  | cons a l ih =>
    by_cases h : p a
    · simp [List.countP_cons, h, ih, hq a h]
    · simp [List.countP_cons, h, ih]

/-- Claim C7: upserting the same profile twice leaves exactly one row for the
key, carrying the given field values and the second call's `updated_at` —
full replacement, last writer wins. -/
theorem claim7_upsert_idempotent :
    ∀ (db : List ProfileRow) (c u : ℤ) (nm : String) (ht : ℤ) (w : ℚ) (ts1 ts2 : String),
      db.countP (profKey c u) ≤ 1 →
      (upsert_profile (upsert_profile db c u nm ht w ts1) c u nm ht w ts2).filter
          (profKey c u) = [⟨c, u, nm, ht, w, ts2⟩] ∧
      (upsert_profile (upsert_profile db c u nm ht w ts1) c u nm ht w ts2).countP
          (profKey c u) = 1 := by
  intro db c u nm ht w ts1 ts2 hcount
  have hnew : ∀ ts, profKey c u (⟨c, u, nm, ht, w, ts⟩ : ProfileRow) = true := by
    intro ts; simp [profKey]
  have h1 : (upsert_profile db c u nm ht w ts1).filter (profKey c u) =
      [⟨c, u, nm, ht, w, ts1⟩] :=
    upsert_core_filter (profKey c u) _ (hnew ts1) db hcount
  have hc1 : (upsert_profile db c u nm ht w ts1).countP (profKey c u) ≤ 1 := by
    rw [List.countP_eq_length_filter, h1]
    exact le_refl 1
  have h2 : (upsert_profile (upsert_profile db c u nm ht w ts1) c u nm ht w ts2).filter
      (profKey c u) = [⟨c, u, nm, ht, w, ts2⟩] :=
    upsert_core_filter (profKey c u) _ (hnew ts2) _ hc1
  refine ⟨h2, ?_⟩
  rw [List.countP_eq_length_filter, h2]
  rfl

/-- Witness for C7: double upsert into an empty table. -/
theorem claim7_witness :
    (upsert_profile (upsert_profile [] 1 2 "Denis" 188 80 "t1") 1 2 "Denis" 188 80 "t2").filter
        (profKey 1 2) = [⟨1, 2, "Denis", 188, 80, "t2"⟩] :=
  (claim7_upsert_idempotent [] 1 2 "Denis" 188 80 "t1" "t2" (by decide)).1

/-- Claim C9: the `pending_fixes` table keeps at most one row per
`(chat_id, user_id)` key: `set_pending_fix` preserves the invariant for every
key and, on a key that already has a row, replaces `bot_message_id` and
`created_at` in place without growing the table; `clear_pending_fix`
preserves the invariant as well. -/
theorem claim9_pending_unique :
    ∀ (db : List PendingRow) (c u m : ℤ) (ts : String),
      (∀ c' u', db.countP (pendKey c' u') ≤ 1) →
      (∀ c' u', (set_pending_fix db c u m ts).countP (pendKey c' u') ≤ 1) ∧
      (∀ c' u', (clear_pending_fix db c u).countP (pendKey c' u') ≤ 1) ∧
      (db.countP (pendKey c u) = 1 →
        (set_pending_fix db c u m ts).filter (pendKey c u) = [⟨c, u, m, ts⟩] ∧
        (set_pending_fix db c u m ts).length = db.length) := by
  intro db c u m ts hinv
  have hnew : pendKey c u (⟨c, u, m, ts⟩ : PendingRow) = true := by simp [pendKey]
  refine ⟨?_, ?_, ?_⟩
  · intro c' u'
    unfold set_pending_fix
    dsimp only
    by_cases hany : db.any (pendKey c u)
    · rw [if_pos hany]
      rw [replace_countP (pendKey c u) (pendKey c' u') _ ?_ db]
      · exact hinv c' u'
      · intro r hr
        have h1 : r.chat_id = c ∧ r.user_id = u := by
          simpa [pendKey] using hr
        simp [pendKey, h1.1, h1.2]
    · rw [if_neg hany, List.countP_append]
      by_cases hk : pendKey c' u' (⟨c, u, m, ts⟩ : PendingRow) = true
      · have h1 : c = c' ∧ u = u' := by simpa [pendKey] using hk
        have h0 : db.countP (pendKey c' u') = 0 := by
          rw [List.countP_eq_zero]
          intro a ha hpa
          refine hany (List.any_eq_true.mpr ⟨a, ha, ?_⟩)
          simp only [pendKey] at hpa ⊢
          rw [← h1.1, ← h1.2] at hpa
          exact hpa
        rw [h0]
        simp [hk]
      · have h0 : List.countP (pendKey c' u') [(⟨c, u, m, ts⟩ : PendingRow)] = 0 := by
          simp [List.countP_cons, hk]
        rw [h0]
        simpa using hinv c' u'
  · intro c' u'
    calc (clear_pending_fix db c u).countP (pendKey c' u')
        ≤ db.countP (pendKey c' u') :=
          List.Sublist.countP_le _ (List.filter_sublist db)
      _ ≤ 1 := hinv c' u'
  · intro hone
    have hany : db.any (pendKey c u) = true := by
      rcases List.countP_pos_iff.mp (by omega : 0 < db.countP (pendKey c u)) with ⟨x, hx, hpx⟩
      exact List.any_eq_true.mpr ⟨x, hx, hpx⟩
    constructor
    · have := upsert_core_filter (pendKey c u) _ hnew db (by omega)
      unfold set_pending_fix
      dsimp only
      rw [if_pos hany]
      rw [if_pos hany] at this
      exact this
    · unfold set_pending_fix
      dsimp only
      rw [if_pos hany, List.length_map]

/-- Witness for C9: setting a pending fix for a key that already has one
replaces it in place. -/
theorem claim9_witness :
    (set_pending_fix [⟨1, 2, 9, "t0"⟩] 1 2 5 "t1").filter (pendKey 1 2) =
        [⟨1, 2, 5, "t1"⟩] ∧
      (set_pending_fix [⟨1, 2, 9, "t0"⟩] 1 2 5 "t1").length =
        ([⟨1, 2, 9, "t0"⟩] : List PendingRow).length :=
  (claim9_pending_unique [⟨1, 2, 9, "t0"⟩] 1 2 5 "t1"
    (fun c' u' => le_trans (List.countP_le_length _) (by decide))).2.2 (by decide)

/-- Claim C6 (modelled from the spec, the trend-producing variant not being
under src/): `weightTrendComment` has exactly four branches — first entry,
stable for |delta| < 0.2, downward for a negative delta, upward for a
positive delta — the delta is rendered with an explicit sign to one decimal,
and recording 82.4 after 83.0 produces the downward comment with "-0.6". -/
theorem claim6_weight_trend :
    (∀ current : ℚ, weightTrendComment current none = trendFirstMsg) ∧
    (∀ current prev : ℚ, |current - prev| < 0.2 →
      weightTrendComment current (some prev) = trendStableMsg) ∧
    (∀ current prev : ℚ, ¬|current - prev| < 0.2 → current - prev < 0 →
      weightTrendComment current (some prev) = trendDownMsg (fmtSigned1 (current - prev))) ∧
    (∀ current prev : ℚ, ¬|current - prev| < 0.2 → 0 < current - prev →
      weightTrendComment current (some prev) = trendUpMsg (fmtSigned1 (current - prev))) ∧
    weightTrendComment (412/5) (some 83) = trendDownMsg "-0.6" := by
  have hfmt : fmtSigned1 ((412 : ℚ)/5 - 83) = "-0.6" := by
    unfold fmtSigned1
    rw [show (10 : ℚ) * ((412 : ℚ)/5 - 83) = ((-6 : ℤ) : ℚ) by norm_num]
    rw [pyRound_intCast]
    decide
  refine ⟨fun current => rfl, ?_, ?_, ?_, ?_⟩
  · intro current prev h
    unfold weightTrendComment
    dsimp only
    rw [if_pos h]
  · intro current prev h1 h2
    unfold weightTrendComment
    dsimp only
    rw [if_neg h1, if_pos h2]
  · intro current prev h1 h2
    unfold weightTrendComment
    dsimp only
    rw [if_neg h1, if_neg (by exact not_lt.mpr (le_of_lt h2))]
  · have habs : ¬|(412 : ℚ)/5 - 83| < 0.2 := by
      rw [not_lt]
      refine le_abs.mpr (Or.inr ?_)
      norm_num
    unfold weightTrendComment
    dsimp only
    rw [if_neg habs, if_pos (by norm_num), hfmt]

/-- Witness for C6: the downward branch applied at 82.4 after 83.0. -/
theorem claim6_witness :
    weightTrendComment (412/5) (some 83) = trendDownMsg (fmtSigned1 ((412 : ℚ)/5 - 83)) :=
  claim6_weight_trend.2.2.1 (412/5) 83
    (by rw [not_lt]; refine le_abs.mpr (Or.inr ?_); norm_num)
    (by norm_num)

/-- Counterexample to claim C3 as stated: the colon in `CORRECT_PREFIX_RE`
is optional, so the single-line message `это не борщ, а плов` is consumed by
the prefix rule and yields the remainder `не борщ, а плов`, not the claimed
`плов`. -/
theorem claim3_counterexample :
    extract_correction_text "это не борщ, а плов" = some "не борщ, а плов" ∧
    extract_correction_text "это не борщ, а плов" ≠ some "плов" :=
  ⟨by decide, by decide⟩

/-- Claim C3 (amended): `extract_correction_text` returns the remainder
after an explicit prefix `исправь`, `это` or `на фото` whose colon is
optional — so a single-line `это не X, а Y` message returns `не X, а Y` via
the prefix rule; the `это не X, а Y` rule answers exactly `Y` only when the
prefix rule fails (e.g. when the remainder spans a newline); otherwise the
entire stripped message is returned when it is at most 80 characters long;
otherwise nothing. -/
theorem claim3_extract_correction_amended :
    (∀ text : String, pyStrip text.data ≠ [] → (pyStrip text.data).length ≤ 80 →
      (extract_correction_text text).isSome = true) ∧
    extract_correction_text "исправь: сырники 3 шт" = some "сырники 3 шт" ∧
    extract_correction_text "это: плов" = some "плов" ∧
    extract_correction_text "на фото: плов" = some "плов" ∧
    extract_correction_text "это не борщ, а плов" = some "не борщ, а плов" ∧
    extract_correction_text "это не борщ,\nа плов" = some "плов" ∧
    extract_correction_text "привет, как дела" = some "привет, как дела" ∧
    extract_correction_text (String.mk (List.replicate 81 'x')) = none := by
  refine ⟨?_, by decide, by decide, by decide, by decide, by decide, by decide, by decide⟩
  intro text hne hlen
  unfold extract_correction_text
  rw [if_neg (by simpa [List.isEmpty_iff] using hne)]
  cases hpre : (correctAltRest (pyStrip text.data)).bind correctTailGroup with
  | some g2 => simp
  | none =>
    by_cases heto : etoNeTest (pyStrip text.data)
    · rw [if_pos heto]
      cases ha : aSearch none (pyStrip text.data) with
      | some g1 => simp
      | none => rw [if_pos hlen]; rfl
    · rw [if_neg heto, if_pos hlen]
      rfl

/-- Witness for C3 (amended): every non-empty message of at most 80
characters yields a correction. -/
theorem claim3_witness : (extract_correction_text "сырники 3 шт").isSome = true :=
  claim3_extract_correction_amended.1 "сырники 3 шт" (by decide) (by decide)

/-- The weight branch viewed in integer tenths of a kilogram: same search,
with the parsed value `10*intpart + decimal` and the range check `[300,
3000]` carried over ℕ. -/
def matchWeightTenths (text : String) : Option ℕ :=
  match weightSearch none (pyStrip text.data) with
  | none => none
  | some g =>
    let t := 10 * natOfDigits g.1 +
      (match g.2 with
       | some d => digitVal d
       | none => 0)
    if 300 ≤ t ∧ t ≤ 3000 then some t else none

/-- The rational value of a captured group is its tenths value divided
by 10. -/
theorem weightValue_eq_tenths (g : List Char × Option Char) :
    weightValue g =
      ((10 * natOfDigits g.1 +
        (match g.2 with
         | some d => digitVal d
         | none => 0) : ℕ) : ℚ) / 10 := by
  rcases g with ⟨ds, fr⟩
  cases fr with
  | none =>
    unfold weightValue
    dsimp only
    push_cast
    ring
  | some d =>
    unfold weightValue
    dsimp only
    push_cast
    ring

/-- The caller's float range check agrees with the tenths range check. -/
theorem tenths_cond (t : ℕ) :
    (30 ≤ (t : ℚ)/10 ∧ (t : ℚ)/10 ≤ 300) ↔ (300 ≤ t ∧ t ≤ 3000) := by
  rw [le_div_iff₀ (by norm_num : (0 : ℚ) < 10), div_le_iff₀ (by norm_num : (0 : ℚ) < 10)]
  constructor
  · rintro ⟨h1, h2⟩
    norm_num at h1 h2
    exact ⟨by exact_mod_cast h1, by exact_mod_cast h2⟩
  · rintro ⟨h1, h2⟩
    have h1q : (300 : ℚ) ≤ (t : ℚ) := by exact_mod_cast h1
    have h2q : ((t : ℚ)) ≤ 3000 := by exact_mod_cast h2
    norm_num
    exact ⟨by linarith, by linarith⟩

/-- The weight branch and its tenths view agree. -/
theorem matchWeightFull_eq_tenths (text : String) :
    matchWeightFull text = (matchWeightTenths text).map (fun t : ℕ => (t : ℚ) / 10) := by
  unfold matchWeightFull matchWeightTenths
  cases hg : weightSearch none (pyStrip text.data) with
  | none => rfl
  | some g =>
    dsimp only
    rw [weightValue_eq_tenths g]
    by_cases hc :
        300 ≤ 10 * natOfDigits g.1 +
            (match g.2 with
             | some d => digitVal d
             | none => 0) ∧
          10 * natOfDigits g.1 +
            (match g.2 with
             | some d => digitVal d
             | none => 0) ≤ 3000
    · rw [if_pos ((tenths_cond _).mpr hc), if_pos hc]
      rfl
    · rw [if_neg (fun h => hc ((tenths_cond _).mp h)), if_neg hc]
      rfl

/-- A digit is not folded by `caseFold`. -/
theorem caseFold_digit {c : Char} (h : isDigitCh c = true) : caseFold c = c := by
  have hn : 48 ≤ c.toNat ∧ c.toNat ≤ 57 := of_decide_eq_true h
  unfold caseFold
  rw [if_neg (by omega), if_neg (by omega), if_neg (by omega)]

/-- A digit is not whitespace. -/
theorem digit_not_space {c : Char} (h : isDigitCh c = true) : pyIsSpace c = false := by
  have hn : 48 ≤ c.toNat ∧ c.toNat ≤ 57 := of_decide_eq_true h
  unfold pyIsSpace
  exact decide_eq_false (by omega)

/-- A whitespace character is not a digit. -/
theorem space_not_digit {c : Char} (h : pyIsSpace c = true) : isDigitCh c = false := by
  have hn := of_decide_eq_true h
  unfold isDigitCh
  exact decide_eq_false (by omega)

/-- A digit is a word character. -/
theorem digit_word {c : Char} (h : isDigitCh c = true) : isWordCh c = true := by
  have hn : 48 ≤ c.toNat ∧ c.toNat ≤ 57 := of_decide_eq_true h
  unfold isWordCh
  exact decide_eq_true (Or.inl hn)

/-- A digit head cannot start the literal `вес`. -/
theorem matchCaseLit_ves_digit {c : Char} (h : isDigitCh c = true) (r : List Char) :
    matchCaseLit ['в', 'е', 'с'] (c :: r) = none := by
  have hn : 48 ≤ c.toNat ∧ c.toNat ≤ 57 := of_decide_eq_true h
  have hne : caseFold c ≠ 'в' := by
    rw [caseFold_digit h]
    intro hc
    rw [hc] at hn
    simp at hn
  simp only [matchCaseLit]
  rw [if_neg hne]

/-- A digit character built from a digit value. -/
theorem digitChar_isDigit {m : ℕ} (h : m < 10) : isDigitCh (Char.ofNat (48 + m)) = true := by
  interval_cases m <;> decide

/-- The numeric value of a built digit character. -/
theorem digitChar_val {m : ℕ} (h : m < 10) : digitVal (Char.ofNat (48 + m)) = m := by
  interval_cases m <;> decide

/-- Dropping whitespace from a whitespace-free list is the identity. -/
theorem dropWhile_no_ws (l : List Char) (h : ∀ c ∈ l, pyIsSpace c = false) :
    l.dropWhile pyIsSpace = l := by
  cases l with
  | nil => rfl
  | cons c r =>
    rw [List.dropWhile_cons_of_neg (by simp [h c (List.mem_cons_self c r)])]

/-- Stripping a whitespace-free list is the identity. -/
theorem pyStrip_no_ws (l : List Char) (h : ∀ c ∈ l, pyIsSpace c = false) :
    pyStrip l = l := by
  unfold pyStrip
  rw [dropWhile_no_ws l h,
    dropWhile_no_ws l.reverse (fun c hc => h c (List.mem_reverse.mp hc)),
    List.reverse_reverse]

/-- A too-greedy digit take fails at once. -/
theorem weightGroupTry_short (k : Nat) (run rest : List Char) (h : ¬k ≤ run.length) :
    weightGroupTry k run rest = none := by
  unfold weightGroupTry
  rw [if_neg h]

/-- The fraction alternative of the capture group succeeds on a separator, a
digit and a boundary. -/
theorem weightGroupTry_frac (k : Nat) (run rest ds : List Char) (s d : Char) (r : List Char)
    (hk : k ≤ run.length) (hds : run.take k = ds) (htail : run.drop k ++ rest = s :: d :: r)
    (hcond : (s = '.' ∨ s = ',') ∧ isDigitCh d = true ∧ boundaryAfterDigit r = true) :
    weightGroupTry k run rest = some (ds, some d) := by
  unfold weightGroupTry
  rw [if_pos hk, htail, hds]
  dsimp only
  rw [if_pos hcond]

/-- The capture group on two digits, a separator and a digit. -/
theorem weightGroup_dec2 (a b s e : Char) (ha : isDigitCh a = true) (hb : isDigitCh b = true)
    (he : isDigitCh e = true) (hs : s = '.' ∨ s = ',') :
    weightGroupMatch [a, b, s, e] = some ([a, b], some e) := by
  have hsd : isDigitCh s = false := by rcases hs with rfl | rfl <;> rfl
  have hrun : List.takeWhile isDigitCh [a, b, s, e] = [a, b] := by
    rw [List.takeWhile_cons_of_pos ha, List.takeWhile_cons_of_pos hb,
      List.takeWhile_cons_of_neg (by simp [hsd])]
  have hrest : List.dropWhile isDigitCh [a, b, s, e] = [s, e] := by
    rw [List.dropWhile_cons_of_pos ha, List.dropWhile_cons_of_pos hb,
      List.dropWhile_cons_of_neg (by simp [hsd])]
  unfold weightGroupMatch
  dsimp only
  rw [hrun, hrest, weightGroupTry_short 3 [a, b] [s, e] (by simp),
    weightGroupTry_frac 2 [a, b] [s, e] [a, b] s e [] (by simp) rfl rfl ⟨hs, he, rfl⟩]
  rfl

/-- The capture group on three digits, a separator and a digit. -/
theorem weightGroup_dec3 (a b c s e : Char) (ha : isDigitCh a = true) (hb : isDigitCh b = true)
    (hc : isDigitCh c = true) (he : isDigitCh e = true) (hs : s = '.' ∨ s = ',') :
    weightGroupMatch [a, b, c, s, e] = some ([a, b, c], some e) := by
  have hsd : isDigitCh s = false := by rcases hs with rfl | rfl <;> rfl
  have hrun : List.takeWhile isDigitCh [a, b, c, s, e] = [a, b, c] := by
    rw [List.takeWhile_cons_of_pos ha, List.takeWhile_cons_of_pos hb,
      List.takeWhile_cons_of_pos hc, List.takeWhile_cons_of_neg (by simp [hsd])]
  have hrest : List.dropWhile isDigitCh [a, b, c, s, e] = [s, e] := by
    rw [List.dropWhile_cons_of_pos ha, List.dropWhile_cons_of_pos hb,
      List.dropWhile_cons_of_pos hc, List.dropWhile_cons_of_neg (by simp [hsd])]
  unfold weightGroupMatch
  dsimp only
  rw [hrun, hrest,
    weightGroupTry_frac 3 [a, b, c] [s, e] [a, b, c] s e [] (by simp) rfl rfl ⟨hs, he, rfl⟩]
  rfl

/-- A successful group match at a digit-headed position zero is the whole
search result. -/
theorem weightMatchHere_dec (a : Char) (rest0 : List Char)
    (ha : isDigitCh a = true) (g : List Char × Option Char)
    (hg : weightGroupMatch (a :: rest0) = some g) :
    weightMatchHere none (a :: rest0) = some g := by
  unfold weightMatchHere
  rw [if_pos (show weightBoundary none (a :: rest0) = true from rfl)]
  rw [show vesWs (a :: rest0) = none from by
    unfold vesWs
    rw [matchCaseLit_ves_digit ha]
    rfl]
  dsimp only
  rw [Option.none_orElse, hg]

/-- A match at position zero is the search result. -/
theorem weightSearch_here (a : Char) (r : List Char) (g : List Char × Option Char)
    (hm : weightMatchHere none (a :: r) = some g) :
    weightSearch none (a :: r) = some g := by
  show (match weightMatchHere none (a :: r) with
    | some g => some g
    | none => weightSearch (some a) r) = some g
  rw [hm]

/-- The digit value of a two-character group. -/
theorem natOfDigits_two (x y : Char) : natOfDigits [x, y] = 10 * digitVal x + digitVal y := by
  show 10 * (10 * 0 + digitVal x) + digitVal y = 10 * digitVal x + digitVal y
  omega

/-- The digit value of a three-character group. -/
theorem natOfDigits_three (x y z : Char) :
    natOfDigits [x, y, z] = 100 * digitVal x + 10 * digitVal y + digitVal z := by
  show 10 * (10 * (10 * 0 + digitVal x) + digitVal y) + digitVal z =
    100 * digitVal x + 10 * digitVal y + digitVal z
  omega

/-- Exhaustive description of the weight matcher over all in-range
one-decimal weights, in the tenths view. -/
theorem weight_render_tenths :
    ∀ n, n < 301 → ∀ d, d < 10 → 300 ≤ 10 * n + d → 10 * n + d ≤ 3000 →
      matchWeightTenths (renderWeight n d '.') = some (10 * n + d) ∧
      matchWeightTenths (renderWeight n d ',') = some (10 * n + d) := by
  intro n hn d hd h1 h2
  have key : ∀ s : Char, s = '.' ∨ s = ',' →
      matchWeightTenths (renderWeight n d s) = some (10 * n + d) := by
    intro s hs
    have hsw : pyIsSpace s = false := by rcases hs with rfl | rfl <;> rfl
    have hde : isDigitCh (Char.ofNat (48 + d)) = true := digitChar_isDigit hd
    by_cases hn100 : n < 100
    · have hq : n / 10 < 10 := by omega
      have hr : n % 10 < 10 := by omega
      have hda : isDigitCh (Char.ofNat (48 + n / 10)) = true := digitChar_isDigit hq
      have hdb : isDigitCh (Char.ofNat (48 + n % 10)) = true := digitChar_isDigit hr
      have hlist : renderWeight n d s = String.mk
          [Char.ofNat (48 + n / 10), Char.ofNat (48 + n % 10), s, Char.ofNat (48 + d)] := by
        unfold renderWeight
        rw [if_pos hn100]
        rfl
      rw [hlist]
      unfold matchWeightTenths
      rw [show (String.mk [Char.ofNat (48 + n / 10), Char.ofNat (48 + n % 10), s,
          Char.ofNat (48 + d)]).data =
          [Char.ofNat (48 + n / 10), Char.ofNat (48 + n % 10), s, Char.ofNat (48 + d)] from rfl]
      rw [pyStrip_no_ws _ (by
        intro x hx
        simp only [List.mem_cons, List.not_mem_nil, or_false] at hx
        rcases hx with rfl | rfl | rfl | rfl
        · exact digit_not_space hda
        · exact digit_not_space hdb
        · exact hsw
        · exact digit_not_space hde)]
      rw [weightSearch_here _ _ _ (weightMatchHere_dec _ _ hda _
        (weightGroup_dec2 _ _ _ _ hda hdb hde hs))]
      dsimp only
      rw [natOfDigits_two, digitChar_val hq, digitChar_val hr, digitChar_val hd]
      rw [show 10 * (10 * (n / 10) + n % 10) + d = 10 * n + d by omega]
      rw [if_pos ⟨h1, h2⟩]
    · have hq : n / 100 < 10 := by omega
      have hm : n / 10 % 10 < 10 := by omega
      have hr : n % 10 < 10 := by omega
      have hda : isDigitCh (Char.ofNat (48 + n / 100)) = true := digitChar_isDigit hq
      have hdb : isDigitCh (Char.ofNat (48 + n / 10 % 10)) = true := digitChar_isDigit hm
      have hdc : isDigitCh (Char.ofNat (48 + n % 10)) = true := digitChar_isDigit hr
      have hlist : renderWeight n d s = String.mk
          [Char.ofNat (48 + n / 100), Char.ofNat (48 + n / 10 % 10), Char.ofNat (48 + n % 10),
            s, Char.ofNat (48 + d)] := by
        unfold renderWeight
        rw [if_neg hn100]
        rfl
      rw [hlist]
      unfold matchWeightTenths
      rw [show (String.mk [Char.ofNat (48 + n / 100), Char.ofNat (48 + n / 10 % 10),
          Char.ofNat (48 + n % 10), s, Char.ofNat (48 + d)]).data =
          [Char.ofNat (48 + n / 100), Char.ofNat (48 + n / 10 % 10), Char.ofNat (48 + n % 10),
            s, Char.ofNat (48 + d)] from rfl]
      rw [pyStrip_no_ws _ (by
        intro x hx
        simp only [List.mem_cons, List.not_mem_nil, or_false] at hx
        rcases hx with rfl | rfl | rfl | rfl | rfl
        · exact digit_not_space hda
        · exact digit_not_space hdb
        · exact digit_not_space hdc
        · exact hsw
        · exact digit_not_space hde)]
      rw [weightSearch_here _ _ _ (weightMatchHere_dec _ _ hda _
        (weightGroup_dec3 _ _ _ _ _ hda hdb hdc hde hs))]
      dsimp only
      rw [natOfDigits_three, digitChar_val hq, digitChar_val hm, digitChar_val hr,
        digitChar_val hd]
      rw [show 10 * (100 * (n / 100) + 10 * (n / 10 % 10) + n % 10) + d = 10 * n + d by omega]
      rw [if_pos ⟨h1, h2⟩]
  exact ⟨key '.' (Or.inl rfl), key ',' (Or.inr rfl)⟩

/-- Claim C4: every weight `w = n + d/10` with `30 ≤ w ≤ 300` is recovered
from both the dot-decimal and the comma-decimal message form; the matcher
itself is permissive about range — `WEIGHT_RE` matches "20" and "500" — and
the out-of-range values are dropped by the caller's `[30, 300]` check as
"no match". -/
theorem claim4_weight_match :
    (∀ n, n < 301 → ∀ d, d < 10 → 300 ≤ 10 * n + d → 10 * n + d ≤ 3000 →
      matchWeightFull (renderWeight n d '.') = some ((n : ℚ) + (d : ℚ)/10) ∧
      matchWeightFull (renderWeight n d ',') = some ((n : ℚ) + (d : ℚ)/10)) ∧
    weightSearch none (pyStrip "20".data) = some (['2', '0'], none) ∧
    matchWeightFull "20" = none ∧
    weightSearch none (pyStrip "500".data) = some (['5', '0', '0'], none) ∧
    matchWeightFull "500" = none := by
  have hval : ∀ n d : ℕ, ((10 * n + d : ℕ) : ℚ) / 10 = (n : ℚ) + (d : ℚ)/10 := by
    intro n d
    push_cast
    ring
  refine ⟨?_, by decide, ?_, by decide, ?_⟩
  · intro n hn d hd h1 h2
    obtain ⟨k1, k2⟩ := weight_render_tenths n hn d hd h1 h2
    constructor
    · rw [matchWeightFull_eq_tenths, k1, Option.map_some', hval n d]
    · rw [matchWeightFull_eq_tenths, k2, Option.map_some', hval n d]
  · rw [matchWeightFull_eq_tenths, show matchWeightTenths "20" = none from by decide]
    rfl
  · rw [matchWeightFull_eq_tenths, show matchWeightTenths "500" = none from by decide]
    rfl

/-- Witness for C4: the weight 79.4 in dot form. -/
theorem claim4_witness :
    matchWeightFull (renderWeight 79 4 '.') = some ((79 : ℚ) + (4 : ℚ)/10) :=
  (claim4_weight_match.1 79 (by decide) 4 (by decide) (by decide) (by decide)).1

/-- Digit-run scanner: `runsOKAux inRun n cs` holds when every maximal digit
run of `cs` has length at least 4, where `inRun`/`n` record that `n` digits
immediately precede `cs`. -/
def runsOKAux : Bool → Nat → List Char → Bool
  | inRun, n, [] => !inRun || decide (4 ≤ n)
  | inRun, n, c :: r =>
    if isDigitCh c then runsOKAux true (n + 1) r
    else (!inRun || decide (4 ≤ n)) && runsOKAux false 0 r

/-- Every maximal run of consecutive digits in `cs` has length at least 4. -/
def runsGE4 (cs : List Char) : Bool := runsOKAux false 0 cs

/-- In the true state the current digit run, continued through `cs`, reaches
length at least 4. -/
theorem runsOK_true_len : ∀ (cs : List Char) (n : Nat),
    runsOKAux true n cs = true → 4 ≤ n + (cs.takeWhile isDigitCh).length := by
  intro cs
  induction cs with
  | nil =>
    intro n h
    simp only [runsOKAux, Bool.not_true, Bool.false_or] at h
    simpa using of_decide_eq_true h
  | cons c r ih =>
    intro n h
    by_cases hc : isDigitCh c
    · simp only [runsOKAux, if_pos hc] at h
      have := ih (n + 1) h
      rw [List.takeWhile_cons_of_pos hc, List.length_cons]
      omega
    · simp only [runsOKAux, if_neg hc] at h
      have h4 := (Bool.and_eq_true _ _).mp h |>.1
      simp only [Bool.not_true, Bool.false_or] at h4
      have : 4 ≤ n := of_decide_eq_true h4
      rw [List.takeWhile_cons_of_neg hc]
      omega

/-- In the start state the leading digit run is empty or at least 4 long. -/
theorem runsOK_run_len : ∀ cs : List Char, runsOKAux false 0 cs = true →
    (cs.takeWhile isDigitCh).length = 0 ∨ 4 ≤ (cs.takeWhile isDigitCh).length := by
  intro cs h
  cases cs with
  | nil => left; rfl
  | cons c r =>
    by_cases hc : isDigitCh c
    · right
      simp only [runsOKAux, if_pos hc] at h
      have := runsOK_true_len r 1 h
      rw [List.takeWhile_cons_of_pos hc, List.length_cons]
      omega
    · left
      rw [List.takeWhile_cons_of_neg hc]
      rfl

/-- Consuming a non-digit head keeps the start state. -/
theorem runsOK_peel {c : Char} {r : List Char} (hc : isDigitCh c = false)
    (h : runsOKAux false 0 (c :: r) = true) : runsOKAux false 0 r = true := by
  simp only [runsOKAux, if_neg (by simp [hc] : ¬isDigitCh c = true)] at h
  exact ((Bool.and_eq_true _ _).mp h).2

/-- When the digit run at the current position is empty or at least 4 long,
the capture group of `WEIGHT_RE` cannot match: with 2 or 3 digits consumed
the next character is still a digit, which neither starts `[.,]\d` nor is a
word boundary. -/
theorem weightGroupMatch_none (cs : List Char)
    (h : (cs.takeWhile isDigitCh).length = 0 ∨ 4 ≤ (cs.takeWhile isDigitCh).length) :
    weightGroupMatch cs = none := by
  have htry : ∀ k, k = 2 ∨ k = 3 →
      weightGroupTry k (cs.takeWhile isDigitCh) (cs.dropWhile isDigitCh) = none := by
    intro k hk
    rcases h with h0 | h4
    · unfold weightGroupTry
      rw [if_neg (by omega)]
    · unfold weightGroupTry
      rw [if_pos (by omega)]
      have hlt : k < (cs.takeWhile isDigitCh).length := by omega
      have hdrop : (cs.takeWhile isDigitCh).drop k ≠ [] := by
        intro hnil
        have := List.drop_eq_nil_iff.mp hnil
        omega
      obtain ⟨s, ds, hds⟩ := List.exists_cons_of_ne_nil hdrop
      have hsmem : s ∈ cs.takeWhile isDigitCh := by
        have : s ∈ (cs.takeWhile isDigitCh).drop k := by rw [hds]; exact List.mem_cons_self s ds
        exact List.mem_of_mem_drop this
      have hsd : isDigitCh s = true := List.mem_takeWhile_imp hsmem
      have hsn : 48 ≤ s.toNat ∧ s.toNat ≤ 57 := of_decide_eq_true hsd
      have hs1 : ¬(s = '.' ∨ s = ',') := by
        rintro (rfl | rfl) <;> simp at hsn
      have hs2 : isWordCh s = true := digit_word hsd
      rw [hds, List.cons_append]
      cases hrest : ds ++ cs.dropWhile isDigitCh with
      | nil =>
        dsimp only
        rw [if_neg (by simp [hs2])]
      | cons d r =>
        dsimp only
        rw [if_neg (by rintro ⟨h1, -⟩; exact hs1 h1), if_neg (by simp [hs2])]
  unfold weightGroupMatch
  dsimp only
  rw [htry 3 (Or.inr rfl), htry 2 (Or.inl rfl)]
  rfl

/-- Start-state preservation through a case-insensitive literal made of
non-digit letters. -/
theorem matchCaseLit_runsOK : ∀ (lit cs rest : List Char),
    (∀ l ∈ lit, isDigitCh l = false) →
    matchCaseLit lit cs = some rest →
    runsOKAux false 0 cs = true → runsOKAux false 0 rest = true := by
  intro lit
  induction lit with
  | nil =>
    intro cs rest _ hm h
    simp only [matchCaseLit, Option.some.injEq] at hm
    rw [← hm]
    exact h
  | cons l ls ih =>
    intro cs rest hl hm h
    cases cs with
    | nil => simp [matchCaseLit] at hm
    | cons c cs1 =>
      simp only [matchCaseLit] at hm
      by_cases hcf : caseFold c = l
      · rw [if_pos hcf] at hm
        have hcd : isDigitCh c = false := by
          by_contra hcd
          have hcd' : isDigitCh c = true := by
            cases hx : isDigitCh c
            · exact absurd hx hcd
            · rfl
          rw [caseFold_digit hcd'] at hcf
          have := hl l (List.mem_cons_self l ls)
          rw [← hcf] at this
          rw [this] at hcd'
          cases hcd'
        exact ih cs1 rest (fun x hx => hl x (List.mem_cons_of_mem l hx)) hm
          (runsOK_peel hcd h)
      · rw [if_neg hcf] at hm
        cases hm

/-- Start-state preservation through leading whitespace. -/
theorem dropWhileWs_runsOK : ∀ cs : List Char, runsOKAux false 0 cs = true →
    runsOKAux false 0 (cs.dropWhile pyIsSpace) = true := by
  intro cs
  induction cs with
  | nil => intro h; exact h
  | cons c r ih =>
    intro h
    by_cases hws : pyIsSpace c
    · rw [List.dropWhile_cons_of_pos hws]
      exact ih (runsOK_peel (space_not_digit hws) h)
    · rw [List.dropWhile_cons_of_neg hws]
      exact h

/-- Invariant carried through the scan of `weightSearch`: viewed from the
current position, every digit run (including a run in progress recorded by a
digit previous character) has length at least 4. -/
def searchInv (prev : Option Char) (cs : List Char) : Prop :=
  match prev with
  | none => runsOKAux false 0 cs = true
  | some a =>
    if isDigitCh a then ∃ n, runsOKAux true n cs = true
    else runsOKAux false 0 cs = true

/-- The invariant survives advancing the scan by one character. -/
theorem searchInv_step (prev : Option Char) (c : Char) (r : List Char)
    (h : searchInv prev (c :: r)) : searchInv (some c) r := by
  unfold searchInv at h ⊢
  dsimp only
  by_cases hc : isDigitCh c
  · rw [if_pos hc]
    rcases prev with _ | a
    · dsimp only at h
      exact ⟨1, by simpa [runsOKAux, hc] using h⟩
    · dsimp only at h
      by_cases ha : isDigitCh a
      · rw [if_pos ha] at h
        obtain ⟨n, hn⟩ := h
        exact ⟨n + 1, by simpa [runsOKAux, hc] using hn⟩
      · rw [if_neg ha] at h
        exact ⟨1, by simpa [runsOKAux, hc] using h⟩
  · have hc' : isDigitCh c = false := by simpa using hc
    rw [if_neg hc]
    rcases prev with _ | a
    · dsimp only at h
      exact runsOK_peel hc' h
    · dsimp only at h
      by_cases ha : isDigitCh a
      · rw [if_pos ha] at h
        obtain ⟨n, hn⟩ := h
        simp only [runsOKAux, if_neg hc] at hn
        exact ((Bool.and_eq_true _ _).mp hn).2
      · rw [if_neg ha] at h
        exact runsOK_peel hc' h

/-- Under the invariant the start state holds whenever the head is not a
digit. -/
theorem searchInv_start {prev : Option Char} {c : Char} {r : List Char}
    (hc : isDigitCh c = false) (h : searchInv prev (c :: r)) :
    runsOKAux false 0 (c :: r) = true := by
  unfold searchInv at h
  have hr : runsOKAux false 0 r = true := by
    rcases prev with _ | a
    · dsimp only at h
      exact runsOK_peel hc h
    · dsimp only at h
      by_cases ha : isDigitCh a
      · rw [if_pos ha] at h
        obtain ⟨n, hn⟩ := h
        simp only [runsOKAux, if_neg (by simp [hc] : ¬isDigitCh c = true)] at hn
        exact ((Bool.and_eq_true _ _).mp hn).2
      · rw [if_neg ha] at h
        exact runsOK_peel hc h
  simp [runsOKAux, hc, hr]

/-- Under the invariant `WEIGHT_RE` cannot match at the current position. -/
theorem weightMatchHere_none (prev : Option Char) (cs : List Char)
    (hinv : searchInv prev cs) : weightMatchHere prev cs = none := by
  unfold weightMatchHere
  cases cs with
  | nil =>
    cases hb : weightBoundary prev []
    · rw [if_neg (by simp [hb])]
    · rfl
  | cons c r =>
    by_cases hc : isDigitCh c
    · -- head digit: either the previous character is a digit (no boundary)
      -- or the invariant makes the leading run too long for the group
      have hdig : ∀ hprev : Option Char, searchInv hprev (c :: r) →
          (hprev = none ∨ ∃ a, hprev = some a ∧ isDigitCh a = false) →
          ((match vesWs (c :: r) with
            | some cs1 => weightGroupMatch cs1
            | none => none) <|> weightGroupMatch (c :: r)) = none := by
        intro hprev hinv' hcase
        have hrun : runsOKAux false 0 (c :: r) = true := by
          unfold searchInv at hinv'
          rcases hcase with rfl | ⟨a, rfl, ha⟩
          · exact hinv'
          · dsimp only at hinv'
            rw [if_neg (by simp [ha])] at hinv'
            exact hinv'
        have hgroup := weightGroupMatch_none (c :: r) (runsOK_run_len _ hrun)
        have hves : vesWs (c :: r) = none := by
          unfold vesWs
          rw [matchCaseLit_ves_digit hc]
          rfl
        rw [hves, hgroup]
        rfl
      rcases prev with _ | a
      · have hb : weightBoundary none (c :: r) = true := rfl
        rw [if_pos hb]
        exact hdig none hinv (Or.inl rfl)
      · by_cases ha : isDigitCh a
        · have hb : weightBoundary (some a) (c :: r) = false := by
            unfold weightBoundary
            dsimp only
            rw [digit_word ha, digit_word hc]
            rfl
          rw [if_neg (by simp [hb])]
        · cases hb : weightBoundary (some a) (c :: r)
          · rw [if_neg (by simp [hb])]
          · exact hdig (some a) hinv (Or.inr ⟨a, rfl, by simpa using ha⟩)
    · -- head not a digit: the group dies at once and the `вес` path lands on
      -- a position still governed by the invariant
      have hc' : isDigitCh c = false := by simpa using hc
      have hrun : runsOKAux false 0 (c :: r) = true := searchInv_start hc' hinv
      have hgroup : weightGroupMatch (c :: r) = none := by
        refine weightGroupMatch_none (c :: r) (Or.inl ?_)
        rw [List.takeWhile_cons_of_neg hc]
        rfl
      have hthen : ((match vesWs (c :: r) with
          | some cs1 => weightGroupMatch cs1
          | none => none) <|> weightGroupMatch (c :: r)) = none := by
        cases hv : vesWs (c :: r) with
        | none => rw [hgroup]; rfl
        | some cs1 =>
          unfold vesWs at hv
          rw [Option.map_eq_some'] at hv
          obtain ⟨rest, hrest, hcs1⟩ := hv
          have hrest2 : runsOKAux false 0 rest = true :=
            matchCaseLit_runsOK ['в', 'е', 'с'] (c :: r) rest (by decide) hrest hrun
          have hcs1run : runsOKAux false 0 cs1 = true := by
            rw [← hcs1]
            exact dropWhileWs_runsOK rest hrest2
          dsimp only
          rw [weightGroupMatch_none cs1 (runsOK_run_len _ hcs1run), hgroup]
          rfl
      cases hb : weightBoundary prev (c :: r)
      · rw [if_neg (by simp [hb])]
      · exact hthen

/-- Under the invariant the whole search fails. -/
theorem weightSearch_none_of_inv : ∀ (cs : List Char) (prev : Option Char),
    searchInv prev cs → weightSearch prev cs = none := by
  intro cs
  induction cs with
  | nil =>
    intro prev hinv
    show weightMatchHere prev [] = none
    exact weightMatchHere_none prev [] hinv
  | cons c r ih =>
    intro prev hinv
    show (match weightMatchHere prev (c :: r) with
      | some g => some g
      | none => weightSearch (some c) r) = none
    rw [weightMatchHere_none prev (c :: r) hinv]
    exact ih (some c) (searchInv_step prev c r hinv)

/-- A trailing whitespace block cannot rescue the scanner state. -/
theorem runsOK_of_ws_tail (l2 : List Char) (hl2 : ∀ c ∈ l2, pyIsSpace c = true)
    (flag : Bool) (n : Nat) (h : runsOKAux flag n l2 = true) :
    (!flag || decide (4 ≤ n)) = true := by
  cases l2 with
  | nil => exact h
  | cons c r =>
    have hcd : isDigitCh c = false := space_not_digit (hl2 c (List.mem_cons_self c r))
    simp only [runsOKAux, if_neg (by simp [hcd] : ¬isDigitCh c = true)] at h
    exact ((Bool.and_eq_true _ _).mp h).1

/-- Removing an all-whitespace suffix preserves the run condition. -/
theorem runsOK_append_ws : ∀ (l1 l2 : List Char), (∀ c ∈ l2, pyIsSpace c = true) →
    ∀ (flag : Bool) (n : Nat), runsOKAux flag n (l1 ++ l2) = true →
      runsOKAux flag n l1 = true := by
  intro l1
  induction l1 with
  | nil =>
    intro l2 hl2 flag n h
    exact runsOK_of_ws_tail l2 hl2 flag n (by simpa using h)
  | cons c r ih =>
    intro l2 hl2 flag n h
    rw [List.cons_append] at h
    by_cases hc : isDigitCh c
    · simp only [runsOKAux, if_pos hc] at h ⊢
      exact ih l2 hl2 true (n + 1) h
    · simp only [runsOKAux, if_neg hc] at h ⊢
      rw [Bool.and_eq_true] at h ⊢
      exact ⟨h.1, ih l2 hl2 false 0 h.2⟩

/-- Stripping whitespace from both ends preserves the run condition. -/
theorem runsGE4_pyStrip (cs : List Char) (h : runsGE4 cs = true) :
    runsGE4 (pyStrip cs) = true := by
  unfold runsGE4 at h ⊢
  unfold pyStrip
  have h1 : runsOKAux false 0 (cs.dropWhile pyIsSpace) = true := dropWhileWs_runsOK cs h
  have hsplit : cs.dropWhile pyIsSpace =
      ((cs.dropWhile pyIsSpace).reverse.dropWhile pyIsSpace).reverse ++
        ((cs.dropWhile pyIsSpace).reverse.takeWhile pyIsSpace).reverse := by
    conv_lhs => rw [← List.reverse_reverse (cs.dropWhile pyIsSpace)]
    conv_lhs =>
      rw [← @List.takeWhile_append_dropWhile _ pyIsSpace (cs.dropWhile pyIsSpace).reverse]
    rw [List.reverse_append]
  rw [hsplit] at h1
  refine runsOK_append_ws _ _ ?_ false 0 h1
  intro c hc
  rw [List.mem_reverse] at hc
  exact List.mem_takeWhile_imp hc

/-- Claim C10: `WEIGHT_RE` never extracts a 2-3-digit number from a text all
of whose maximal digit runs have length at least 4 — a bare step count such
as "8400" is never recorded as a weight even though the weight rule runs
before the steps rule. -/
theorem claim10_no_weight_from_long_runs :
    ∀ text : String, runsGE4 text.data = true → matchWeightFull text = none := by
  intro text h
  unfold matchWeightFull
  rw [weightSearch_none_of_inv (pyStrip text.data) none (runsGE4_pyStrip text.data h)]

/-- Witness for C10: the step count "8400" from the evening reminder. -/
theorem claim10_witness : runsGE4 "8400".data = true ∧ matchWeightFull "8400" = none :=
  ⟨by decide, claim10_no_weight_from_long_runs "8400" (by decide)⟩
